import Mathlib

/-!
Verification development for the `aimlflow-rayed` MLflow → Aim synchronization
pipeline (`src/aimlflowrayed/utils.py`).  Python dictionaries are embedded as
insertion-ordered association lists, actor state as explicit record passing,
and fallible operations as `Except`.
-/

namespace AimlflowRayed

/-! ## Python dictionaries as insertion-ordered association lists

`dictGet d k` models `d.get(k)` and `dictSet d k v` models `d[k] = v`
(update the first binding in place, else append at the end, preserving
insertion order). -/

def dictGet {α : Type} : List (String × α) → String → Option α
  | [], _ => Option.none
  | (k0, v0) :: rest, k => if k0 = k then some v0 else dictGet rest k

def dictSet {α : Type} : List (String × α) → String → α → List (String × α)
  | [], k, v => [(k, v)]
  | (k0, v0) :: rest, k, v =>
    if k0 = k then (k, v) :: rest else (k0, v0) :: dictSet rest k v

theorem dictGet_dictSet_self {α : Type} (d : List (String × α)) (k : String) (v : α) :
    dictGet (dictSet d k v) k = some v := by
  induction d with
  | nil => simp [dictGet, dictSet]
  | cons p rest ih =>
    obtain ⟨k0, v0⟩ := p
    by_cases h : k0 = k
    · simp [dictGet, dictSet, h]
    · simp [dictGet, dictSet, h, ih]

theorem dictGet_dictSet_ne {α : Type} (d : List (String × α)) (k k' : String) (v : α)
    (h : k ≠ k') : dictGet (dictSet d k v) k' = dictGet d k' := by
  induction d with
  | nil => simp [dictGet, dictSet, h]
  | cons p rest ih =>
    obtain ⟨k0, v0⟩ := p
    by_cases h0 : k0 = k
    · subst h0
      simp [dictGet, dictSet, h]
    · simp only [dictSet, if_neg h0]
      by_cases h1 : k0 = k'
      · simp [dictGet, h1]
      · simp [dictGet, h1, ih]

/-! ## `RunHashCache` (`utils.py` lines 44–77)

The Ray actor holds `self._cache` (a dict), `self._needs_refresh` (dirty
flag) and writes to a file at `self._cache_path`; the file contents are
embedded as `diskFile` (`Option.none` = file absent). -/

structure RunHashCache where
  _cache : List (String × String)
  _needs_refresh : Bool
  diskFile : Option (List (String × String))
deriving DecidableEq

/-- `__setitem__` (lines 66–69): `if not self._cache.get(key) == val:` —
Python `None == val` is `False` for a string `val`, so the body is skipped
exactly when the stored value equals `val`. -/
def RunHashCache.setItem (c : RunHashCache) (key val : String) : RunHashCache :=
  if dictGet c._cache key = some val then c
  else { c with _cache := dictSet c._cache key val, _needs_refresh := true }

/-- `set` (lines 60–61) delegates to `__setitem__`. -/
def RunHashCache.set (c : RunHashCache) (run_id hashval : String) : RunHashCache :=
  c.setItem run_id hashval

/-- `get` (lines 63–64): `self._cache.get(run_id)`. -/
def RunHashCache.get (c : RunHashCache) (run_id : String) : Option String :=
  dictGet c._cache run_id

/-- `refresh` (lines 74–77): unconditionally opens the cache path with mode
`'w'` and dumps the whole mapping; the dirty flag is neither consulted nor
cleared. -/
def RunHashCache.refresh (c : RunHashCache) : RunHashCache :=
  { c with diskFile := some c._cache }

/-! ## Python literal values

`Value` embeds the Python values produced by `ast.literal_eval` on the
string-encoded parameters this pipeline handles: `None`, booleans, integers,
strings, lists and string-keyed dicts.  (Float literals are out of scope of
this embedding; none of the verified properties mention them.) -/

inductive Value where
  | null : Value
  | vbool : Bool → Value
  | vint : Int → Value
  | vstr : String → Value
  | vlist : List Value → Value
  | vmap : List (String × Value) → Value

/-- A non-dict Python value reaching `_try_parse_str` as a leaf of the
parameter tree: either a string (the only type the assert admits) or a
non-string value, represented by an integer. -/
inductive PyLeaf where
  | str : String → PyLeaf
  | intV : Int → PyLeaf
deriving DecidableEq

/-! A nested Python parameter structure as walked by `_map_nested_dicts`:
a value is either a non-dict leaf or a dict (`PForest` keeps the dict's
insertion-ordered key/subtree pairs). -/

mutual
inductive PTree where
  | leaf : PyLeaf → PTree
  | node : PForest → PTree
inductive PForest where
  | nil : PForest
  | cons : String → PTree → PForest → PForest
end

/-! ## `ast.literal_eval`, restricted to the literals this pipeline meets

A fuel-indexed recursive-descent parser for integer, boolean, `None` and
(nested) list literals; any other string is unparseable (`Option.none`),
which models `literal_eval` raising. -/

def skipSpaces : List Char → List Char
  | [] => []
  | c :: cs => if c = ' ' then skipSpaces cs else c :: cs

def takeDigits : List Char → List Char × List Char
  | [] => ([], [])
  | c :: cs =>
    if c.isDigit then
      let (ds, rest) := takeDigits cs
      (c :: ds, rest)
    else ([], c :: cs)

def digitsToNat (ds : List Char) : Nat :=
  ds.foldl (fun acc c => acc * 10 + (c.toNat - 48)) 0

def parseIntLit (cs : List Char) : Option (Int × List Char) :=
  match cs with
  | '-' :: rest =>
    let (ds, r) := takeDigits rest
    if ds.isEmpty then Option.none else some (-(digitsToNat ds : Int), r)
  | '+' :: rest =>
    let (ds, r) := takeDigits rest
    if ds.isEmpty then Option.none else some ((digitsToNat ds : Int), r)
  | _ =>
    let (ds, r) := takeDigits cs
    if ds.isEmpty then Option.none else some ((digitsToNat ds : Int), r)

mutual
def parseValueF : Nat → List Char → Option (Value × List Char)
  | 0, _ => Option.none
  | Nat.succ fuel, cs =>
    match skipSpaces cs with
    | '[' :: rest => parseListF fuel rest
    | cs1 =>
      if cs1.take 4 = "True".data then some (Value.vbool true, cs1.drop 4)
      else if cs1.take 5 = "False".data then some (Value.vbool false, cs1.drop 5)
      else if cs1.take 4 = "None".data then some (Value.null, cs1.drop 4)
      else
        match parseIntLit cs1 with
        | some (n, r) => some (Value.vint n, r)
        | Option.none => Option.none

def parseListF : Nat → List Char → Option (Value × List Char)
  | 0, _ => Option.none
  | Nat.succ fuel, cs =>
    match skipSpaces cs with
    | ']' :: rest => some (Value.vlist [], rest)
    | cs1 =>
      match parseValueF fuel cs1 with
      | some (v, r) => parseListTailF fuel [v] r
      | Option.none => Option.none

def parseListTailF : Nat → List Value → List Char → Option (Value × List Char)
  | 0, _, _ => Option.none
  | Nat.succ fuel, acc, cs =>
    match skipSpaces cs with
    | ']' :: rest => some (Value.vlist acc, rest)
    | ',' :: rest =>
      match parseValueF fuel rest with
      | some (v, r) => parseListTailF fuel (acc ++ [v]) r
      | Option.none => Option.none
    | _ => Option.none
end

/-- `ast.literal_eval` on the already-stripped string: parse one literal and
require only trailing spaces. -/
def literal_eval (s : String) : Option Value :=
  match parseValueF (2 * s.length + 4) s.data with
  | some (v, rest) => if skipSpaces rest = [] then some v else Option.none
  | Option.none => Option.none

/-! ## `_try_parse_str` and `_map_nested_dicts` (`utils.py` lines 362–374) -/

/-- Python `str.strip()`: drop surrounding whitespace from both ends. -/
def pyStrip (s : String) : String :=
  String.mk (skipSpaces (skipSpaces s.data.reverse).reverse)

/-- `_try_parse_str` (lines 369–374): asserts its argument is a string
(`Except.error` models the `AssertionError` for any non-string), then
returns `literal_eval(s.strip())`, falling back to the original string when
`literal_eval` raises. -/
def _try_parse_str (s : PyLeaf) : Except String Value :=
  match s with
  | PyLeaf.str str =>
    Except.ok ((literal_eval (pyStrip str)).getD (Value.vstr str))
  | PyLeaf.intV n =>
    Except.error ("Expected a string, got " ++ toString n)

/-! `_map_nested_dicts` (lines 362–366): recurse through dicts, apply `fun`
to every non-dict value; a raised exception propagates (the dict
comprehension evaluates entries in order). -/

mutual
def mapNestedDicts (f : PyLeaf → Except String Value) : PTree → Except String Value
  | PTree.leaf l => f l
  | PTree.node fr =>
    match mapNestedForest f fr with
    | Except.ok kvs => Except.ok (Value.vmap kvs)
    | Except.error e => Except.error e

def mapNestedForest (f : PyLeaf → Except String Value) :
    PForest → Except String (List (String × Value))
  | PForest.nil => Except.ok []
  | PForest.cons k t rest =>
    match mapNestedDicts f t with
    | Except.ok v =>
      match mapNestedForest f rest with
      | Except.ok vs => Except.ok ((k, v) :: vs)
      | Except.error e => Except.error e
    | Except.error e => Except.error e
end

/-! ## `get_mlflow_experiments` (`utils.py` lines 80–91) -/

structure MlflowExperimentDesc where
  experiment_id : String
  name : String
deriving DecidableEq

/-- The mlflow tracking client, as consumed by experiment resolution:
`search_experiments()` is the full experiment list; `get_experiment`
returning `Option.none` models it raising `MlflowException`;
`get_experiment_by_name` returning `Option.none` models a `None` result. -/
structure MlflowClient where
  search_experiments : List MlflowExperimentDesc
  get_experiment : String → Option MlflowExperimentDesc
  get_experiment_by_name : String → Option MlflowExperimentDesc

/-- `get_mlflow_experiments`: no selector → all experiments; otherwise id
lookup with name-lookup fallback on `MlflowException`; a falsy result raises
`RuntimeError` (`Except.error`), which nothing in the pipeline catches. -/
def get_mlflow_experiments (client : MlflowClient) (experiment : Option String) :
    Except String (List MlflowExperimentDesc) :=
  match experiment with
  | Option.none => Except.ok client.search_experiments
  | some sel =>
    let ex := match client.get_experiment sel with
      | some e => some e
      | Option.none => client.get_experiment_by_name sel
    match ex with
    | some e => Except.ok [e]
    | Option.none =>
      Except.error ("Could not find experiment with id or name " ++ sel)

/-! ## The mlflow run record and the transfer record ("dummy run") -/

structure MlflowRunInfo where
  run_id : String
  experiment_id : String
deriving DecidableEq

/-- `mlflow_run.data`: flat string-to-string `params` and `tags` dicts (the
mlflow client returns parameter values string-encoded). -/
structure MlflowRunData where
  params : List (String × String)
  tags : List (String × String)
deriving DecidableEq

structure MlflowRun where
  info : MlflowRunInfo
  data : MlflowRunData
deriving DecidableEq

/-- The `argparse.Namespace` transfer record built by `get_dummyrun` and
mutated by `collect_run_params`; `run_hash = Option.none` models the
`run_hash` attribute being absent (`hasattr` false).  Metric payloads are
carried by the real record but are irrelevant to every verified property
and are omitted. -/
structure DummyRun where
  run_id : String
  run_name : String
  run_hash : Option String
  experiment : String
  params : List (String × Value)

/-- Python truthiness of `cache.get(run_id)`: `None` and the empty string
are falsy. -/
def truthyStr : Option String → Bool
  | Option.none => false
  | some s => !(s == "")

/-- `get_dummyrun` (`utils.py` lines 161–178): fetch the cached hash; if it
is truthy the record carries it as `run_hash`, otherwise the `run_hash`
attribute is not set at all. -/
def get_dummyrun (run_id run_name experiment_name : String)
    (run_cache : RunHashCache) : DummyRun :=
  let run_hash0 := run_cache.get run_id
  if truthyStr run_hash0 then
    { run_id := run_id, run_name := run_name, run_hash := run_hash0,
      experiment := experiment_name, params := [] }
  else
    { run_id := run_id, run_name := run_name, run_hash := Option.none,
      experiment := experiment_name, params := [] }

/-- Lift the flat string-to-string mlflow params dict into the nested tree
walked by `_map_nested_dicts` (every leaf is a Python string). -/
def liftForest : List (String × String) → PForest
  | [] => PForest.nil
  | (k, v) :: rest => PForest.cons k (PTree.leaf (PyLeaf.str v)) (liftForest rest)

/-- `collect_run_params` (`utils.py` lines 244–254), line by line:
the duplicated `mlflow_run_id` assignment, the unconditional `description`
assignment (`tags.get("mlflow.note.content")` is `None` when the note is
absent), the recursively re-parsed `params`, and the tag dict filtered by
`not k.startswith('mlflow')`. -/
def collect_run_params (dummyrun : DummyRun) (mlflow_run : MlflowRun) :
    Except String DummyRun :=
  let p0 := dictSet dummyrun.params "mlflow_run_id" (Value.vstr mlflow_run.info.run_id)
  let p1 := dictSet p0 "mlflow_run_id" (Value.vstr mlflow_run.info.run_id)
  let p2 := dictSet p1 "mlflow_experiment_id" (Value.vstr mlflow_run.info.experiment_id)
  let p3 := dictSet p2 "description"
    (match dictGet mlflow_run.data.tags "mlflow.note.content" with
     | some s => Value.vstr s
     | Option.none => Value.null)
  match mapNestedDicts _try_parse_str (PTree.node (liftForest mlflow_run.data.params)) with
  | Except.error e => Except.error e
  | Except.ok parsed =>
    let p4 := dictSet p3 "params" parsed
    let p5 := dictSet p4 "tags"
      (Value.vmap ((mlflow_run.data.tags.filter
        (fun kv => !kv.1.startsWith "mlflow")).map
        (fun kv => (kv.1, Value.vstr kv.2))))
    Except.ok { dummyrun with params := p5 }

/-! ## The destination store (Aim repo) and the commit path

`aim.Run(...)` with a `run_hash` argument reopens the existing destination
record; without one it creates a brand-new record with a fresh (nonempty)
hash.  The repo is embedded as the list of existing record hashes plus a
fresh-hash counter. -/

structure AimRepo where
  records : List String
  nextId : Nat
deriving DecidableEq

def freshHash (n : Nat) : String := "aim-run-" ++ toString n

/-- `Run(repo=..., ...)` without `run_hash`: create a new destination
record under a fresh hash. -/
def runCreate (repo : AimRepo) : String × AimRepo :=
  let h := freshHash repo.nextId
  (h, { records := repo.records ++ [h], nextId := repo.nextId + 1 })

/-- `Run(run_hash=h, repo=..., ...)`: reopen the existing record `h`; no
new record appears. -/
def runReopen (h : String) (repo : AimRepo) : String × AimRepo := (h, repo)

/-- `CommitWorker.commit_dummy_run` (`utils.py` lines 132–158): dispatch on
`hasattr(dummy, 'run_hash')`; returns the resulting Aim run's hash and the
updated repo (name/param/metric writes touch the record, not the record
list). -/
def commit_dummy_run (dummy : DummyRun) (repo : AimRepo) : String × AimRepo :=
  match dummy.run_hash with
  | some h => runReopen h repo
  | Option.none => runCreate repo

/-- One iteration of the `CommitWorker.commit` loop (lines 126–128):
commit the record, then `run_cache.set(drun.run_id, aimrun.hash)`. -/
def commitOne (st : AimRepo × RunHashCache) (drun : DummyRun) :
    AimRepo × RunHashCache :=
  let (h, repo) := commit_dummy_run drun st.1
  (repo, st.2.set drun.run_id h)

/-- `CommitWorker.commit` (lines 123–130): sequentially commit the
partition. -/
def commitWorker (runs : List DummyRun) (st : AimRepo × RunHashCache) :
    AimRepo × RunHashCache :=
  runs.foldl commitOne st

/-! ## `CommitDriver.commit` (`utils.py` lines 104–113)

`np.array_split(range(N), W)` yields `N mod W` index blocks of size
`N / W + 1` followed by the rest of size `N / W`; indexing `dummy_runs`
by each block is splitting the list itself by those sizes. -/

def arraySplitSizes (n w : Nat) : List Nat :=
  List.replicate (n % w) (n / w + 1) ++ List.replicate (w - n % w) (n / w)

def splitBySizes {α : Type} : List α → List Nat → List (List α)
  | _, [] => []
  | l, s :: rest => l.take s :: splitBySizes (l.drop s) rest

/-- The `works` list of `CommitDriver.commit`: the batch split into one
contiguous chunk per worker. -/
def commitWorks {α : Type} (dummy_runs : List α) (w : Nat) : List (List α) :=
  splitBySizes dummy_runs (arraySplitSizes dummy_runs.length w)

/-- `CommitDriver.commit`: dispatch each chunk to a worker and wait for all
of them; all cache traffic is serialized through the single cache actor and
workers write disjoint records, embedded as folding the workers in order. -/
def commitDriver (w : Nat) (dummy_runs : List DummyRun)
    (st : AimRepo × RunHashCache) : AimRepo × RunHashCache :=
  (commitWorks dummy_runs w).foldl (fun st part => commitWorker part st) st

/-! ## One experiment pass of `convert_existing_logs` (`utils.py` 186–204) -/

/-- A source run as enumerated by `client.search_runs`: run id, run name and
the containing experiment's name. -/
structure SourceRun where
  run_id : String
  run_name : String
  experiment : String

/-- The per-experiment body of `convert_existing_logs`: fetch one transfer
record per run against the current cache (`get_dummyrun`), submit the batch
to `CommitDriver.commit` with `w` worker connections, then
`run_cache.refresh()`. -/
def syncExperiment (w : Nat) (runs : List SourceRun)
    (st : AimRepo × RunHashCache) : AimRepo × RunHashCache :=
  let druns := runs.map (fun r => get_dummyrun r.run_id r.run_name r.experiment st.2)
  let st1 := commitDriver w druns st
  (st1.1, st1.2.refresh)

/-! ## Claim theorems -/

/-- C2, counterexample: the claim says a mapping is never replaced with a
different destination id, but `__setitem__` on a cache holding
`r1 ↦ "a"` with the new value `"b"` overwrites the mapping: afterwards
`get r1` is `some "b"`, no longer `some "a"`. -/
theorem cache_set_overwrite_counterexample :
    RunHashCache.get ⟨[("r1", "a")], false, Option.none⟩ "r1" = some "a" ∧
    RunHashCache.get
      (RunHashCache.set ⟨[("r1", "a")], false, Option.none⟩ "r1" "b") "r1" ≠ some "a" ∧
    RunHashCache.get
      (RunHashCache.set ⟨[("r1", "a")], false, Option.none⟩ "r1" "b") "r1" = some "b" := by
  refine ⟨rfl, ?_, by decide⟩
  decide

/-- C2, amended: `set` with the currently stored value is an idempotent
no-op (the whole actor state is unchanged, dirty flag included); `set` with
any other value overwrites the mapping and marks the cache dirty. -/
theorem cache_set_idempotent_or_overwrite (c : RunHashCache) (k v : String) :
    (RunHashCache.get c k = some v → RunHashCache.set c k v = c) ∧
    (RunHashCache.get c k ≠ some v →
      RunHashCache.get (RunHashCache.set c k v) k = some v ∧
      (RunHashCache.set c k v)._needs_refresh = true) := by
  constructor
  · intro h
    simp only [RunHashCache.set, RunHashCache.setItem, RunHashCache.get] at *
    simp [h]
  · intro h
    simp only [RunHashCache.set, RunHashCache.setItem, RunHashCache.get] at *
    simp [h, dictGet_dictSet_self]

/-- C2 witness: the amended statement evaluated on a concrete cache, for
both the idempotent case and the overwrite case. -/
theorem cache_set_idempotent_or_overwrite_witness :
    (RunHashCache.set ⟨[("r2", "a")], false, Option.none⟩ "r2" "a" =
      (⟨[("r2", "a")], false, Option.none⟩ : RunHashCache)) ∧
    (RunHashCache.get
        (RunHashCache.set ⟨[("r2", "a")], false, Option.none⟩ "r2" "b") "r2" = some "b" ∧
      (RunHashCache.set ⟨[("r2", "a")], false, Option.none⟩ "r2" "b")._needs_refresh = true) :=
  ⟨(cache_set_idempotent_or_overwrite ⟨[("r2", "a")], false, Option.none⟩ "r2" "a").1
      (by decide),
   (cache_set_idempotent_or_overwrite ⟨[("r2", "a")], false, Option.none⟩ "r2" "b").2
      (by decide)⟩

/-- C3, counterexample: `refresh` on a non-dirty cache whose in-memory
mapping differs from the on-disk file rewrites the file (the claim says a
non-dirty refresh leaves it untouched), and `refresh` on a dirty cache
leaves the dirty flag set (the claim says it is cleared). -/
theorem cache_refresh_counterexample :
    (⟨[("r1", "h1")], false, some []⟩ : RunHashCache)._needs_refresh = false ∧
    (RunHashCache.refresh ⟨[("r1", "h1")], false, some []⟩).diskFile ≠
      (⟨[("r1", "h1")], false, some []⟩ : RunHashCache).diskFile ∧
    (RunHashCache.refresh ⟨[("r1", "h1")], true, Option.none⟩)._needs_refresh = true := by
  refine ⟨rfl, ?_, rfl⟩
  decide

/-- C3, amended: `refresh()` always rewrites the cache file with the full
in-memory mapping, regardless of the dirty flag — a plain `open(path, 'w')`
overwrite, with no write-then-rename step — and it neither clears nor
consults the dirty flag; the in-memory mapping is untouched. -/
theorem cache_refresh_always_writes (c : RunHashCache) :
    (RunHashCache.refresh c).diskFile = some c._cache ∧
    (RunHashCache.refresh c)._needs_refresh = c._needs_refresh ∧
    (RunHashCache.refresh c)._cache = c._cache :=
  ⟨rfl, rfl, rfl⟩

/-- C9: a cached but falsy destination id — the empty string — is treated
as uncached: `get_dummyrun` builds the record with no `run_hash` attribute,
and `commit_dummy_run` therefore creates a brand-new destination record
under a fresh hash. -/
theorem falsy_cached_hash_creates_new_record
    (run_id run_name exp_name : String) (cache : RunHashCache) (repo : AimRepo)
    (h : cache.get run_id = some "") :
    (get_dummyrun run_id run_name exp_name cache).run_hash = Option.none ∧
    (commit_dummy_run (get_dummyrun run_id run_name exp_name cache) repo).1 =
      freshHash repo.nextId ∧
    (commit_dummy_run (get_dummyrun run_id run_name exp_name cache) repo).2.records =
      repo.records ++ [freshHash repo.nextId] := by
  simp [get_dummyrun, h, truthyStr, commit_dummy_run, runCreate]

/-- C9 witness: the theorem evaluated on a concrete cache mapping `r9` to
the empty string. -/
theorem falsy_cached_hash_creates_new_record_witness :
    (get_dummyrun "r9" "n9" "e9" ⟨[("r9", "")], false, Option.none⟩).run_hash =
      Option.none ∧
    (commit_dummy_run (get_dummyrun "r9" "n9" "e9" ⟨[("r9", "")], false, Option.none⟩)
        ⟨["h0"], 3⟩).1 = freshHash 3 ∧
    (commit_dummy_run (get_dummyrun "r9" "n9" "e9" ⟨[("r9", "")], false, Option.none⟩)
        ⟨["h0"], 3⟩).2.records = ["h0"] ++ [freshHash 3] :=
  falsy_cached_hash_creates_new_record "r9" "n9" "e9"
    ⟨[("r9", "")], false, Option.none⟩ ⟨["h0"], 3⟩ (by decide)

/-! ### Partition lemmas for `np.array_split` -/

theorem splitBySizes_length {α : Type} (sizes : List Nat) (l : List α) :
    (splitBySizes l sizes).length = sizes.length := by
  induction sizes generalizing l with
  | nil => simp [splitBySizes]
  | cons s rest ih => simp [splitBySizes, ih]

theorem sum_arraySplitSizes (n w : Nat) (hw : 0 < w) :
    (arraySplitSizes n w).sum = n := by
  have hlt : n % w < w := Nat.mod_lt n hw
  have h2 : n % w * (n / w) ≤ w * (n / w) :=
    Nat.mul_le_mul_right _ (Nat.le_of_lt hlt)
  have h3 : n % w + w * (n / w) = n := Nat.mod_add_div n w
  have key : ∀ x y a : Nat, x ≤ y → x + a + (y - x) = a + y := by omega
  simp only [arraySplitSizes, List.sum_append, List.sum_replicate, smul_eq_mul]
  rw [Nat.mul_succ, Nat.sub_mul]
  exact (key _ _ _ h2).trans h3

theorem splitBySizes_join {α : Type} (sizes : List Nat) (l : List α)
    (h : sizes.sum = l.length) : (splitBySizes l sizes).flatten = l := by
  induction sizes generalizing l with
  | nil =>
    simp only [List.sum_nil] at h
    simp [splitBySizes, List.length_eq_zero.mp h.symm]
  | cons s rest ih =>
    simp only [List.sum_cons] at h
    have hs : s ≤ l.length := by omega
    have hrest : rest.sum = (l.drop s).length := by
      simp only [List.length_drop]
      omega
    simp only [splitBySizes, List.flatten_cons]
    rw [ih (l.drop s) hrest, List.take_append_drop]

theorem splitBySizes_mem_length {α : Type} (sizes : List Nat) (l : List α)
    (h : sizes.sum ≤ l.length) :
    ∀ p ∈ splitBySizes l sizes, p.length ∈ sizes := by
  induction sizes generalizing l with
  | nil => simp [splitBySizes]
  | cons s rest ih =>
    intro p hp
    simp only [List.sum_cons] at h
    simp only [splitBySizes, List.mem_cons] at hp
    rcases hp with rfl | hp
    · have hs : s ≤ l.length := by omega
      simp [List.length_take, Nat.min_eq_left hs]
    · have hrest : rest.sum ≤ (l.drop s).length := by
        simp only [List.length_drop]
        omega
      exact List.mem_cons_of_mem _ (ih (l.drop s) hrest p hp)

theorem splitBySizes_subset {α : Type} (sizes : List Nat) (l : List α) :
    ∀ p ∈ splitBySizes l sizes, ∀ x ∈ p, x ∈ l := by
  induction sizes generalizing l with
  | nil => simp [splitBySizes]
  | cons s rest ih =>
    intro p hp x hx
    simp only [splitBySizes, List.mem_cons] at hp
    rcases hp with rfl | hp
    · exact List.take_subset s l hx
    · exact List.drop_subset s l (ih (l.drop s) p hp x hx)

/-- C4: for any batch of `N` transfer records and any pool size `W ≥ 1`,
the split performed by `CommitDriver.commit` (`np.array_split`) yields
exactly `W` contiguous chunks whose in-order concatenation reconstructs the
batch exactly (so records are not reordered within a chunk), and every
chunk has size `N / W` or `N / W + 1` — sizes differ by at most one, with
empty chunks when `N < W`. -/
theorem commit_partition_coverage {α : Type} (dummy_runs : List α) (w : Nat)
    (hw : 1 ≤ w) :
    (commitWorks dummy_runs w).length = w ∧
    (commitWorks dummy_runs w).flatten = dummy_runs ∧
    ∀ p ∈ commitWorks dummy_runs w,
      p.length = dummy_runs.length / w ∨ p.length = dummy_runs.length / w + 1 := by
  have hw0 : 0 < w := hw
  have hmod : dummy_runs.length % w < w := Nat.mod_lt _ hw0
  have hsum : (arraySplitSizes dummy_runs.length w).sum = dummy_runs.length :=
    sum_arraySplitSizes _ _ hw0
  refine ⟨?_, splitBySizes_join _ _ hsum, ?_⟩
  · rw [commitWorks, splitBySizes_length, arraySplitSizes]
    simp only [List.length_append, List.length_replicate]
    omega
  · intro p hp
    have hmem := splitBySizes_mem_length _ _ (le_of_eq hsum) p hp
    simp only [arraySplitSizes, List.mem_append, List.mem_replicate] at hmem
    tauto

/-- C4 witness: the coverage facts evaluated on a five-element batch split
across two workers. -/
theorem commit_partition_coverage_witness :
    (commitWorks [1, 2, 3, 4, 5] 2).length = 2 ∧
    (commitWorks [1, 2, 3, 4, 5] 2).flatten = [1, 2, 3, 4, 5] :=
  ⟨(commit_partition_coverage [1, 2, 3, 4, 5] 2 (by decide)).1,
   (commit_partition_coverage [1, 2, 3, 4, 5] 2 (by decide)).2.1⟩

/-! ### Second-pass idempotence lemmas -/

theorem truthy_exists (o : Option String) (h : truthyStr o = true) :
    ∃ s, o = some s := by
  cases o with
  | none => simp [truthyStr] at h
  | some s => exact ⟨s, rfl⟩

theorem commitOne_noop (repo : AimRepo) (cache : RunHashCache) (d : DummyRun)
    (h : ∃ hv, d.run_hash = some hv ∧ dictGet cache._cache d.run_id = some hv) :
    commitOne (repo, cache) d = (repo, cache) := by
  obtain ⟨hv, hd, hc⟩ := h
  simp [commitOne, commit_dummy_run, hd, runReopen, RunHashCache.set,
    RunHashCache.setItem, hc]

theorem commitWorker_noop (repo : AimRepo) (cache : RunHashCache)
    (runs : List DummyRun)
    (h : ∀ d ∈ runs,
      ∃ hv, d.run_hash = some hv ∧ dictGet cache._cache d.run_id = some hv) :
    commitWorker runs (repo, cache) = (repo, cache) := by
  induction runs with
  | nil => rfl
  | cons d rest ih =>
    have h1 := commitOne_noop repo cache d (h d (List.mem_cons_self d rest))
    show List.foldl commitOne (commitOne (repo, cache) d) rest = (repo, cache)
    rw [h1]
    exact ih (fun d' hd => h d' (List.mem_cons_of_mem _ hd))

theorem commitDriver_noop (w : Nat) (repo : AimRepo) (cache : RunHashCache)
    (druns : List DummyRun)
    (h : ∀ d ∈ druns,
      ∃ hv, d.run_hash = some hv ∧ dictGet cache._cache d.run_id = some hv) :
    commitDriver w druns (repo, cache) = (repo, cache) := by
  have hsub := splitBySizes_subset (arraySplitSizes druns.length w) druns
  have main : ∀ parts : List (List DummyRun), (∀ p ∈ parts, ∀ d ∈ p, d ∈ druns) →
      parts.foldl (fun st part => commitWorker part st) (repo, cache) = (repo, cache) := by
    intro parts
    induction parts with
    | nil => intro _; rfl
    | cons p rest ih =>
      intro hp
      rw [List.foldl_cons,
        commitWorker_noop repo cache p
          (fun d hd => h d (hp p (List.mem_cons_self _ _) d hd))]
      exact ih (fun q hq d hd => hp q (List.mem_cons_of_mem _ hq) d hd)
  exact main _ (fun p hp d hd => hsub p hp d hd)

/-- C1: a second full pass over an unchanged source, starting from an
identity cache that already maps every incoming source run id (to the
nonempty hash its destination record got in pass one), creates zero
additional destination records: every fetched transfer record carries the
cached id as `run_hash`, the commit reopens the existing record, every
`set` is an identical-value no-op, and after the pass the destination
repo is unchanged and every source run id maps to the same destination id
as before. -/
theorem second_pass_creates_nothing (w : Nat) (runs : List SourceRun)
    (repo : AimRepo) (cache : RunHashCache)
    (h : ∀ r ∈ runs, truthyStr (cache.get r.run_id) = true) :
    (∀ r ∈ runs,
      (get_dummyrun r.run_id r.run_name r.experiment cache).run_hash =
        cache.get r.run_id) ∧
    (syncExperiment w runs (repo, cache)).1 = repo ∧
    (syncExperiment w runs (repo, cache)).2._cache = cache._cache := by
  have hA : ∀ r ∈ runs,
      (get_dummyrun r.run_id r.run_name r.experiment cache).run_hash =
        cache.get r.run_id := by
    intro r hr
    simp [get_dummyrun, h r hr]
  have hdr : commitDriver w
      (runs.map (fun r => get_dummyrun r.run_id r.run_name r.experiment cache))
      (repo, cache) = (repo, cache) := by
    apply commitDriver_noop
    intro d hd
    simp only [List.mem_map] at hd
    obtain ⟨r, hr, rfl⟩ := hd
    obtain ⟨hv, hhv⟩ := truthy_exists _ (h r hr)
    refine ⟨hv, ?_, ?_⟩
    · rw [hA r hr, hhv]
    · have hid : (get_dummyrun r.run_id r.run_name r.experiment cache).run_id =
          r.run_id := by
        simp only [get_dummyrun]
        split <;> rfl
      rw [hid]
      exact hhv
  refine ⟨hA, ?_, ?_⟩
  · show (commitDriver w _ (repo, cache)).1 = repo
    rw [hdr]
  · show ((commitDriver w _ (repo, cache)).2.refresh)._cache = cache._cache
    rw [hdr]
    rfl

/-- C1 witness: a one-run second pass over a cache already holding
`r1 ↦ h1` leaves the destination records and the mapping untouched. -/
theorem second_pass_creates_nothing_witness :
    (syncExperiment 4 [⟨"r1", "n1", "e1"⟩]
      (⟨["h1"], 1⟩, ⟨[("r1", "h1")], false, Option.none⟩)).1 =
      (⟨["h1"], 1⟩ : AimRepo) ∧
    (syncExperiment 4 [⟨"r1", "n1", "e1"⟩]
      (⟨["h1"], 1⟩, ⟨[("r1", "h1")], false, Option.none⟩)).2._cache =
      [("r1", "h1")] :=
  ⟨(second_pass_creates_nothing 4 [⟨"r1", "n1", "e1"⟩] ⟨["h1"], 1⟩
      ⟨[("r1", "h1")], false, Option.none⟩ (by decide)).2.1,
   (second_pass_creates_nothing 4 [⟨"r1", "n1", "e1"⟩] ⟨["h1"], 1⟩
      ⟨[("r1", "h1")], false, Option.none⟩ (by decide)).2.2⟩

/-- C6: with no selector `get_mlflow_experiments` returns every experiment
known to the source; with a selector it tries the identity lookup first,
falls back to the name lookup when that raises, and when neither resolves
it raises a not-found `RuntimeError` (`Except.error`), which no caller
catches, so the whole sync pass aborts. -/
theorem experiment_resolution (client : MlflowClient) :
    (get_mlflow_experiments client Option.none =
      Except.ok client.search_experiments) ∧
    (∀ sel e, client.get_experiment sel = some e →
      get_mlflow_experiments client (some sel) = Except.ok [e]) ∧
    (∀ sel e, client.get_experiment sel = Option.none →
      client.get_experiment_by_name sel = some e →
      get_mlflow_experiments client (some sel) = Except.ok [e]) ∧
    (∀ sel, client.get_experiment sel = Option.none →
      client.get_experiment_by_name sel = Option.none →
      get_mlflow_experiments client (some sel) =
        Except.error ("Could not find experiment with id or name " ++ sel)) := by
  refine ⟨rfl, ?_, ?_, ?_⟩
  · intro sel e h
    simp [get_mlflow_experiments, h]
  · intro sel e h1 h2
    simp [get_mlflow_experiments, h1, h2]
  · intro sel h1 h2
    simp [get_mlflow_experiments, h1, h2]

/-- A concrete mlflow client for the C6 witness: one experiment, reachable
by id `"1"` or by name `"alpha"`. -/
def witnessClient : MlflowClient :=
  { search_experiments := [⟨"1", "alpha"⟩],
    get_experiment := fun s => if s = "1" then some ⟨"1", "alpha"⟩ else Option.none,
    get_experiment_by_name :=
      fun s => if s = "alpha" then some ⟨"1", "alpha"⟩ else Option.none }

/-- C6 witness: the resolution contract evaluated on `witnessClient` for
all four cases — no selector, id hit, name fallback, and the fatal
not-found error. -/
theorem experiment_resolution_witness :
    (get_mlflow_experiments witnessClient Option.none =
      Except.ok [⟨"1", "alpha"⟩]) ∧
    (get_mlflow_experiments witnessClient (some "1") = Except.ok [⟨"1", "alpha"⟩]) ∧
    (get_mlflow_experiments witnessClient (some "alpha") =
      Except.ok [⟨"1", "alpha"⟩]) ∧
    (get_mlflow_experiments witnessClient (some "zzz") =
      Except.error ("Could not find experiment with id or name " ++ "zzz")) :=
  ⟨(experiment_resolution witnessClient).1,
   (experiment_resolution witnessClient).2.1 "1" ⟨"1", "alpha"⟩ (by decide),
   (experiment_resolution witnessClient).2.2.1 "alpha" ⟨"1", "alpha"⟩
     (by decide) (by decide),
   (experiment_resolution witnessClient).2.2.2 "zzz" (by decide) (by decide)⟩

/-- C5: parameter value recovery — the string `"42"` recovers as the
integer `42`, `"[1, 2, 3]"` as a 3-element sequence, the unparseable
`"hello"` stays the string `"hello"`; in general `_try_parse_str` returns
the parsed native value whenever `literal_eval` succeeds on the stripped
string and the original string unchanged otherwise; and `_map_nested_dicts`
applies this re-interpretation recursively through nested mappings. -/
theorem parameter_value_recovery :
    _try_parse_str (PyLeaf.str "42") = Except.ok (Value.vint 42) ∧
    _try_parse_str (PyLeaf.str "[1, 2, 3]") =
      Except.ok (Value.vlist [Value.vint 1, Value.vint 2, Value.vint 3]) ∧
    _try_parse_str (PyLeaf.str "hello") = Except.ok (Value.vstr "hello") ∧
    (∀ s : String,
      (∃ v, literal_eval (pyStrip s) = some v ∧
        _try_parse_str (PyLeaf.str s) = Except.ok v) ∨
      (literal_eval (pyStrip s) = Option.none ∧
        _try_parse_str (PyLeaf.str s) = Except.ok (Value.vstr s))) ∧
    mapNestedDicts _try_parse_str
      (PTree.node (PForest.cons "a" (PTree.leaf (PyLeaf.str "42"))
        (PForest.cons "b"
          (PTree.node (PForest.cons "c" (PTree.leaf (PyLeaf.str "hello")) PForest.nil))
          PForest.nil))) =
      Except.ok (Value.vmap [("a", Value.vint 42),
        ("b", Value.vmap [("c", Value.vstr "hello")])]) := by
  refine ⟨rfl, rfl, rfl, ?_, rfl⟩
  intro s
  cases h : literal_eval (pyStrip s) with
  | none => exact Or.inr ⟨rfl, by simp [_try_parse_str, h]⟩
  | some v => exact Or.inl ⟨v, rfl, by simp [_try_parse_str, h]⟩

/-! ### `collect_run_params` characterization -/

/-- The value `_try_parse_str` recovers from one string-encoded parameter. -/
def parseParamValue (s : String) : Value :=
  (literal_eval (pyStrip s)).getD (Value.vstr s)

theorem mapNestedForest_liftForest (l : List (String × String)) :
    mapNestedForest _try_parse_str (liftForest l) =
      Except.ok (l.map (fun kv => (kv.1, parseParamValue kv.2))) := by
  induction l with
  | nil => rfl
  | cons kv rest ih =>
    obtain ⟨k, v⟩ := kv
    simp [liftForest, mapNestedForest, mapNestedDicts, _try_parse_str,
      parseParamValue, ih]

/-- The params dict `collect_run_params` leaves on the transfer record,
written out as the explicit `dictSet` chain the six assignments perform. -/
def collectedParams (d : DummyRun) (r : MlflowRun) : List (String × Value) :=
  dictSet (dictSet (dictSet (dictSet (dictSet (dictSet d.params
    "mlflow_run_id" (Value.vstr r.info.run_id))
    "mlflow_run_id" (Value.vstr r.info.run_id))
    "mlflow_experiment_id" (Value.vstr r.info.experiment_id))
    "description" (match dictGet r.data.tags "mlflow.note.content" with
      | some s => Value.vstr s
      | Option.none => Value.null))
    "params" (Value.vmap (r.data.params.map
      (fun kv => (kv.1, parseParamValue kv.2)))))
    "tags" (Value.vmap ((r.data.tags.filter
      (fun kv => !kv.1.startsWith "mlflow")).map
      (fun kv => (kv.1, Value.vstr kv.2))))

theorem collect_run_params_ok (d : DummyRun) (r : MlflowRun) :
    collect_run_params d r = Except.ok { d with params := collectedParams d r } := by
  simp [collect_run_params, mapNestedDicts, mapNestedForest_liftForest,
    collectedParams]

/-- C7: in the committed tag set of any fetched run, a pair `(k, v)` from
the source tags appears iff `k` does not start with the reserved `mlflow`
namespace; excluded keys are dropped, everything else is preserved verbatim
(same key, same value), and nothing else appears. -/
theorem tag_filtering (d : DummyRun) (r : MlflowRun) :
    ∃ d1, collect_run_params d r = Except.ok d1 ∧
      dictGet d1.params "tags" = some (Value.vmap ((r.data.tags.filter
        (fun kv => !kv.1.startsWith "mlflow")).map
        (fun kv => (kv.1, Value.vstr kv.2)))) ∧
      (∀ k v, (k, Value.vstr v) ∈ (r.data.tags.filter
          (fun kv => !kv.1.startsWith "mlflow")).map
          (fun kv => (kv.1, Value.vstr kv.2)) ↔
        ((k, v) ∈ r.data.tags ∧ k.startsWith "mlflow" = false)) ∧
      (∀ kv ∈ (r.data.tags.filter (fun kv => !kv.1.startsWith "mlflow")).map
          (fun kv => (kv.1, Value.vstr kv.2)), ∃ v, kv.2 = Value.vstr v) := by
  refine ⟨_, collect_run_params_ok d r, ?_, ?_, ?_⟩
  · simp [collectedParams, dictGet_dictSet_self]
  · intro k v
    simp only [List.mem_map, List.mem_filter, Prod.mk.injEq, Value.vstr.injEq]
    constructor
    · rintro ⟨⟨k0, v0⟩, ⟨hmem, hflt⟩, hk, hv⟩
      subst hk
      subst hv
      exact ⟨hmem, by simpa using hflt⟩
    · rintro ⟨hmem, hflt⟩
      exact ⟨(k, v), ⟨hmem, by simpa using hflt⟩, rfl, rfl⟩
  · intro kv hkv
    simp only [List.mem_map] at hkv
    obtain ⟨⟨k0, v0⟩, _, rfl⟩ := hkv
    exact ⟨v0, rfl⟩

/-- C8, counterexample: for a source run with no `mlflow.note.content` tag
the claim says no description entry is added, but `collect_run_params`
always assigns `params['description']` — here it maps `"description"` to
Python `None`, not to no entry. -/
theorem description_always_added_counterexample :
    (collect_run_params ⟨"rid", "rname", Option.none, "exp", []⟩
        ⟨⟨"rid", "eid"⟩, ⟨[], []⟩⟩).map
      (fun d1 => dictGet d1.params "description") =
      Except.ok (some Value.null) ∧
    (Except.ok (some Value.null) :
        Except String (Option Value)) ≠ Except.ok Option.none := by
  constructor
  · rfl
  · simp

/-- C8, amended: the transfer record's parameters always include the
derived `mlflow_run_id` and `mlflow_experiment_id` entries, and always
include a `description` entry as well — holding the source run's note when
one is present and Python `None` otherwise (rather than the entry being
omitted for runs without a note). -/
theorem derived_params_present (d : DummyRun) (r : MlflowRun) :
    ∃ d1, collect_run_params d r = Except.ok d1 ∧
      dictGet d1.params "mlflow_run_id" = some (Value.vstr r.info.run_id) ∧
      dictGet d1.params "mlflow_experiment_id" =
        some (Value.vstr r.info.experiment_id) ∧
      dictGet d1.params "description" =
        some (match dictGet r.data.tags "mlflow.note.content" with
          | some s => Value.vstr s
          | Option.none => Value.null) := by
  refine ⟨_, collect_run_params_ok d r, ?_, ?_, ?_⟩ <;>
    simp +decide [collectedParams, dictGet_dictSet_ne, dictGet_dictSet_self]

/-! ### C10: totality of the parameter walk under the string precondition -/

mutual
def PTree.allLeavesStr : PTree → Bool
  | PTree.leaf (PyLeaf.str _) => true
  | PTree.leaf (PyLeaf.intV _) => false
  | PTree.node f => PForest.allLeavesStr f
def PForest.allLeavesStr : PForest → Bool
  | PForest.nil => true
  | PForest.cons _ t rest => PTree.allLeavesStr t && PForest.allLeavesStr rest
end

def TreeTotal (t : PTree) : Prop :=
  (PTree.allLeavesStr t = true →
    ∃ v, mapNestedDicts _try_parse_str t = Except.ok v) ∧
  (PTree.allLeavesStr t = false →
    ∃ e, mapNestedDicts _try_parse_str t = Except.error e)

def ForestTotal (f : PForest) : Prop :=
  (PForest.allLeavesStr f = true →
    ∃ vs, mapNestedForest _try_parse_str f = Except.ok vs) ∧
  (PForest.allLeavesStr f = false →
    ∃ e, mapNestedForest _try_parse_str f = Except.error e)

theorem treeTotal_leaf (l : PyLeaf) : TreeTotal (PTree.leaf l) := by
  cases l with
  | str s =>
    refine ⟨fun _ => ⟨_, rfl⟩, fun h => ?_⟩
    simp [PTree.allLeavesStr] at h
  | intV n =>
    refine ⟨fun h => ?_, fun _ => ⟨_, rfl⟩⟩
    simp [PTree.allLeavesStr] at h

theorem treeTotal_node (f : PForest) (ih : ForestTotal f) :
    TreeTotal (PTree.node f) := by
  constructor
  · intro h
    have hf : PForest.allLeavesStr f = true := by
      simpa [PTree.allLeavesStr] using h
    obtain ⟨vs, hvs⟩ := ih.1 hf
    exact ⟨Value.vmap vs, by simp [mapNestedDicts, hvs]⟩
  · intro h
    have hf : PForest.allLeavesStr f = false := by
      simpa [PTree.allLeavesStr] using h
    obtain ⟨e, he⟩ := ih.2 hf
    exact ⟨e, by simp [mapNestedDicts, he]⟩

theorem forestTotal_nil : ForestTotal PForest.nil := by
  refine ⟨fun _ => ⟨[], rfl⟩, fun h => ?_⟩
  simp [PForest.allLeavesStr] at h

theorem forestTotal_cons (k : String) (t : PTree) (f : PForest)
    (iht : TreeTotal t) (ihf : ForestTotal f) :
    ForestTotal (PForest.cons k t f) := by
  constructor
  · intro h
    simp only [PForest.allLeavesStr, Bool.and_eq_true] at h
    obtain ⟨v, hv⟩ := iht.1 h.1
    obtain ⟨vs, hvs⟩ := ihf.1 h.2
    exact ⟨(k, v) :: vs, by simp [mapNestedForest, hv, hvs]⟩
  · intro h
    cases ht : PTree.allLeavesStr t with
    | false =>
      obtain ⟨e, he⟩ := iht.2 ht
      exact ⟨e, by simp [mapNestedForest, he]⟩
    | true =>
      obtain ⟨v, hv⟩ := iht.1 ht
      simp only [PForest.allLeavesStr, ht, Bool.true_and] at h
      obtain ⟨e, he⟩ := ihf.2 h
      exact ⟨e, by simp [mapNestedForest, hv, he]⟩

theorem treeTotal_all (t : PTree) : TreeTotal t :=
  @PTree.rec TreeTotal ForestTotal treeTotal_leaf treeTotal_node
    forestTotal_nil forestTotal_cons t

/-- C10: `_try_parse_str` accepts exactly strings — on any string it
totally returns the parsed native value or the original string, on any
non-string it raises `AssertionError`; consequently the `_map_nested_dicts`
walk returns normally iff every leaf of the parameter tree is a string, and
raises as soon as some leaf is not. -/
theorem parse_assert_totality :
    (∀ s, _try_parse_str (PyLeaf.str s) =
      Except.ok ((literal_eval (pyStrip s)).getD (Value.vstr s))) ∧
    (∀ n : Int, ∃ e, _try_parse_str (PyLeaf.intV n) = Except.error e) ∧
    (∀ t : PTree,
      (PTree.allLeavesStr t = true →
        ∃ v, mapNestedDicts _try_parse_str t = Except.ok v) ∧
      (PTree.allLeavesStr t = false →
        ∃ e, mapNestedDicts _try_parse_str t = Except.error e)) :=
  ⟨fun _ => rfl, fun _ => ⟨_, rfl⟩, fun t => treeTotal_all t⟩

/-- C10 witness: the totality dichotomy evaluated on an all-string leaf and
on a non-string leaf. -/
theorem parse_assert_totality_witness :
    (∃ v, mapNestedDicts _try_parse_str (PTree.leaf (PyLeaf.str "7")) =
      Except.ok v) ∧
    (∃ e, mapNestedDicts _try_parse_str (PTree.leaf (PyLeaf.intV 7)) =
      Except.error e) :=
  ⟨(parse_assert_totality.2.2 (PTree.leaf (PyLeaf.str "7"))).1 rfl,
   (parse_assert_totality.2.2 (PTree.leaf (PyLeaf.intV 7))).2 rfl⟩

end AimlflowRayed
